import Mathlib

/-!
# Queue-family discovery and GPU selection of `kat::render_device`

A shallow embedding of `src/engine/src/kat/engine.cpp`:

* the queue-family scan of the `render_device` constructor (lines 58-96),
* the transfer fall-back (lines 98-101),
* the `.value()` accesses and the construction of the queue-create requests (lines 103-117),
* `select_gpu` / `select_gpu_naive` (lines 191-203).

The Vulkan calls are replaced by their results: a physical device is the ordered list of its
queue families, each carrying the three capability bits of `queueFlags` the constructor tests and
the answer of `getSurfaceSupportKHR(i, surface)` for the family's own index.
-/

namespace kat

/-! ## Data model -/

/-- One entry of `getQueueFamilyProperties()`, together with the surface-support answer for it.
`graphics`, `compute`, `transfer` are `queueFlags & eGraphics`, `& eCompute`, `& eTransfer`;
`surface_support` is `getSurfaceSupportKHR(i, surface)` at the index `i` of this family. -/
structure queue_family where
  graphics : Bool
  compute : Bool
  transfer : Bool
  surface_support : Bool
deriving DecidableEq, Repr

/-- The struct `queue_support` of `engine.hpp`: four `std::optional<uint32_t>`. -/
structure queue_support where
  graphics : Option Nat
  transfer : Option Nat
  present : Option Nat
  compute : Option Nat
deriving DecidableEq, Repr

/-- The local variables of the constructor that the scan reads and writes. The counter `i` is a
`uint32_t`; it is incremented at most once per family and Vulkan reports the family count as a
`uint32_t`, so it cannot wrap and is kept as a natural number. -/
structure scan_state where
  i : Nat
  graphics_selected : Bool
  present_selected : Bool
  m_queue_support : queue_support
deriving DecidableEq, Repr

/-- The state before the loop: `i = 0`, both flags false, all four optionals empty. -/
def scan_init : scan_state :=
  { i := 0, graphics_selected := false, present_selected := false,
    m_queue_support := { graphics := none, transfer := none, present := none, compute := none } }

/-! ## The loop body, block by block -/

/-- Lines 66-75: pick the first graphics family, and make it the present family when it supports
the surface (this inner assignment does not look at `present_selected`). -/
def pick_graphics (s : scan_state) (family : queue_family) : scan_state :=
  if !s.graphics_selected && family.graphics then
    if family.surface_support then
      { s with
        graphics_selected := true
        present_selected := true
        m_queue_support := { s.m_queue_support with graphics := some s.i, present := some s.i } }
    else
      { s with
        graphics_selected := true
        m_queue_support := { s.m_queue_support with graphics := some s.i } }
  else s

/-- Lines 78-80: a transfer family that is not the graphics one. `i != m_queue_support.graphics`
compares a value with an optional: it is true when the optional is empty or holds another value.
The assignment is not guarded by `transfer.has_value()`. -/
def pick_transfer (s : scan_state) (family : queue_family) : scan_state :=
  if s.graphics_selected && (s.m_queue_support.graphics != some s.i) && family.transfer then
    { s with m_queue_support := { s.m_queue_support with transfer := some s.i } }
  else s

/-- Lines 83-86: the first family supporting the surface, when none was taken yet. -/
def pick_present (s : scan_state) (family : queue_family) : scan_state :=
  if !s.present_selected && family.surface_support then
    { s with
      present_selected := true
      m_queue_support := { s.m_queue_support with present := some s.i } }
  else s

/-- Lines 88-90: the compute family; the assignment is unconditional on earlier choices. -/
def pick_compute (s : scan_state) (family : queue_family) : scan_state :=
  if family.compute then
    { s with m_queue_support := { s.m_queue_support with compute := some s.i } }
  else s

/-- Lines 66-90: the four blocks in source order. -/
def scan_body (s : scan_state) (family : queue_family) : scan_state :=
  pick_compute (pick_present (pick_transfer (pick_graphics s family) family) family) family

/-- Line 92: the condition of the `break`. -/
def all_assigned (q : queue_support) : Bool :=
  q.graphics.isSome && q.present.isSome && q.compute.isSome && q.transfer.isSome

/-- Lines 64-96: the range-for loop. After the body, `break` leaves the loop with `i` still the
index of the current family; otherwise `i++` and the next family is visited. -/
def scan_loop : List queue_family → scan_state → scan_state
  | [], s => s
  | family :: rest, s =>
    let s' := scan_body s family
    if all_assigned s'.m_queue_support then s'
    else scan_loop rest { s' with i := s'.i + 1 }

/-- The state right after the loop (line 96) for a device with the given families. -/
def scan (queue_families : List queue_family) : scan_state :=
  scan_loop queue_families scan_init

/-- One pass of the loop seen from the state after the previous passes: nothing happens once
the loop has been left by `break`; otherwise the body runs, followed by `break` or `i++`. It is
used to unfold `scan` one family at a time from the left. -/
def scan_step (r : scan_state) (family : queue_family) : scan_state :=
  if all_assigned r.m_queue_support then r
  else
    let s' := scan_body r family
    if all_assigned s'.m_queue_support then s' else { s' with i := s'.i + 1 }

/-- The only error the constructor itself raises: `std::bad_optional_access`, thrown by
`std::optional::value()` on an empty optional. -/
inductive ctor_error where
  | bad_optional_access
deriving DecidableEq, Repr

deriving instance DecidableEq for Except

/-- The call `std::optional<uint32_t>::value()`. -/
def value : Option Nat → Except ctor_error Nat
  | some v => .ok v
  | none => .error .bad_optional_access

/-- Lines 99-101: when `transfer` is still empty it becomes `graphics.value()`, which throws
when no graphics family was found. -/
def transfer_fallback (q : queue_support) : Except ctor_error queue_support :=
  if q.transfer.isSome then .ok q
  else do
    let g ← value q.graphics
    pure { q with transfer := some g }

/-- Lines 58-101: the scan followed by the transfer fall-back. -/
def discover (queue_families : List queue_family) : Except ctor_error queue_support :=
  transfer_fallback (scan queue_families).m_queue_support

/-- One `vk::DeviceQueueCreateInfo`: the family index and the priority array. The number of
queues requested is the length of the array. The priority `1.0f` is the rational `1`. -/
structure device_queue_create_info where
  queue_family_index : Nat
  queue_priorities : List ℚ
deriving DecidableEq

/-- Line 113: `queue_priorities = {1.0f}`. -/
def queue_priorities : List ℚ := [1]

/-- What the constructor has computed when it reaches `createDevice` (line 145): the final
`m_queue_support`, the set `unique_families` and the queue-create requests. -/
structure device_request where
  m_queue_support : queue_support
  unique_families : List Nat
  device_queue_create_infos : List device_queue_create_info
deriving DecidableEq

/-- Lines 103-117: the four `.value()` reads (for the log line and for `unique_families`; each
throws on an empty optional) and one queue-create request per member of `unique_families`.
`unique_families` is a `std::unordered_set`, whose iteration order is unspecified: it is kept as
a duplicate-free list whose order carries no meaning. -/
def queue_create_infos (q : queue_support) : Except ctor_error device_request := do
  let g ← value q.graphics
  let p ← value q.present
  let t ← value q.transfer
  let c ← value q.compute
  let unique_families := [g, p, t, c].dedup
  pure
    { m_queue_support := q
      unique_families := unique_families
      device_queue_create_infos :=
        unique_families.map fun family =>
          { queue_family_index := family, queue_priorities := queue_priorities } }

/-- Lines 56-145 of the constructor, up to the `createDevice` call: `.error` means an exception
left the constructor before `createDevice` was reached, `.ok r` means `createDevice` is called
with the requests `r.device_queue_create_infos`. -/
def render_device (queue_families : List queue_family) : Except ctor_error device_request := do
  let q ← discover queue_families
  queue_create_infos q

/-! ## GPU selection -/

/-- The scoped enum `gpu_selection_strategy`, by its underlying integer: `naive` is the only
enumerator (value 0); any other value reaches the `default` branch of `select_gpu`. -/
structure gpu_selection_strategy where
  underlying : Int
deriving DecidableEq, Repr

/-- The enumerator `gpu_selection_strategy::naive`. -/
def gpu_selection_strategy.naive : gpu_selection_strategy := ⟨0⟩

/-- What `select_gpu` can fail with. -/
inductive select_error where
  | runtime_error (what : String)
  | out_of_range
deriving DecidableEq, Repr

/-- Lines 200-203: `gpus[0]` of the enumeration. The enumeration
`vulkan_instance().enumeratePhysicalDevices()` is the argument `gpus`; indexing an empty vector
has no defined result and is reported as `out_of_range`. -/
def select_gpu_naive {physical_device : Type} (gpus : List physical_device) :
    Except select_error physical_device :=
  match gpus[0]? with
  | some gpu => .ok gpu
  | none => .error .out_of_range

/-- Lines 191-198: dispatch on the strategy. -/
def select_gpu {physical_device : Type} (strategy : gpu_selection_strategy)
    (gpus : List physical_device) : Except select_error physical_device :=
  if strategy = gpu_selection_strategy.naive then select_gpu_naive gpus
  else .error (.runtime_error "Unrecognized or unimplemented gpu_selection_strategy.")

/-! ## Concrete devices used below -/

/-- A family with every capability and surface support. -/
def fam_all : queue_family := ⟨true, true, true, true⟩
/-- A graphics-only family without surface support. -/
def fam_g : queue_family := ⟨true, false, false, false⟩
/-- A transfer-only family without surface support. -/
def fam_t : queue_family := ⟨false, false, true, false⟩
/-- A compute-only family without surface support. -/
def fam_c : queue_family := ⟨false, true, false, false⟩
/-- A family that only supports presenting to the surface. -/
def fam_p : queue_family := ⟨false, false, false, true⟩
/-- A family with graphics, compute and surface support but no transfer bit. -/
def fam_gpc : queue_family := ⟨true, true, false, true⟩

/-! ## The body, field by field -/

section body

variable (s : scan_state) (family : queue_family)

theorem scan_body_i : (scan_body s family).i = s.i := by
  unfold scan_body pick_compute pick_present pick_transfer pick_graphics
  repeat' split
  all_goals rfl

theorem scan_body_graphics_selected :
    (scan_body s family).graphics_selected = (s.graphics_selected || family.graphics) := by
  rcases s with ⟨i, gs, ps, q⟩
  rcases family with ⟨fg, fc, ft, fp⟩
  by_cases h : q.graphics = some i <;>
    cases gs <;> cases fg <;> cases fp <;> cases ps <;> cases fc <;> cases ft <;>
      simp [scan_body, pick_compute, pick_present, pick_transfer, pick_graphics, h]

theorem scan_body_present_selected :
    (scan_body s family).present_selected = (s.present_selected || family.surface_support) := by
  rcases s with ⟨i, gs, ps, q⟩
  rcases family with ⟨fg, fc, ft, fp⟩
  by_cases h : q.graphics = some i <;>
    cases gs <;> cases fg <;> cases fp <;> cases ps <;> cases fc <;> cases ft <;>
      simp [scan_body, pick_compute, pick_present, pick_transfer, pick_graphics, h]

theorem scan_body_graphics :
    (scan_body s family).m_queue_support.graphics =
      if !s.graphics_selected && family.graphics then some s.i
      else s.m_queue_support.graphics := by
  rcases s with ⟨i, gs, ps, q⟩
  rcases family with ⟨fg, fc, ft, fp⟩
  by_cases h : q.graphics = some i <;>
    cases gs <;> cases fg <;> cases fp <;> cases ps <;> cases fc <;> cases ft <;>
      simp [scan_body, pick_compute, pick_present, pick_transfer, pick_graphics, h]

theorem scan_body_present :
    (scan_body s family).m_queue_support.present =
      if family.surface_support && ((!s.graphics_selected && family.graphics) || !s.present_selected)
      then some s.i else s.m_queue_support.present := by
  rcases s with ⟨i, gs, ps, q⟩
  rcases family with ⟨fg, fc, ft, fp⟩
  by_cases h : q.graphics = some i <;>
    cases gs <;> cases fg <;> cases fp <;> cases ps <;> cases fc <;> cases ft <;>
      simp [scan_body, pick_compute, pick_present, pick_transfer, pick_graphics, h]

theorem scan_body_compute :
    (scan_body s family).m_queue_support.compute =
      if family.compute then some s.i else s.m_queue_support.compute := by
  rcases s with ⟨i, gs, ps, q⟩
  rcases family with ⟨fg, fc, ft, fp⟩
  by_cases h : q.graphics = some i <;>
    cases gs <;> cases fg <;> cases fp <;> cases ps <;> cases fc <;> cases ft <;>
      simp [scan_body, pick_compute, pick_present, pick_transfer, pick_graphics, h]

theorem scan_body_transfer :
    (scan_body s family).m_queue_support.transfer =
      if s.graphics_selected && (s.m_queue_support.graphics != some s.i) && family.transfer
      then some s.i else s.m_queue_support.transfer := by
  rcases s with ⟨i, gs, ps, q⟩
  rcases family with ⟨fg, fc, ft, fp⟩
  by_cases h : q.graphics = some i <;>
    cases gs <;> cases fg <;> cases fp <;> cases ps <;> cases fc <;> cases ft <;>
      simp [scan_body, pick_compute, pick_present, pick_transfer, pick_graphics, h]

end body

/-! ## Unfolding the loop one family at a time -/

theorem scan_loop_append (l : List queue_family) (family : queue_family) (s : scan_state)
    (hs : all_assigned s.m_queue_support = false) :
    scan_loop (l ++ [family]) s = scan_step (scan_loop l s) family := by
  induction l generalizing s with
  | nil => simp [scan_loop, scan_step, hs]
  | cons a l ih =>
    simp only [List.cons_append, scan_loop]
    by_cases hb : all_assigned (scan_body s a).m_queue_support = true
    · simp [hb, scan_step]
    · simp only [hb, if_false]
      exact ih _ (by simpa using hb)

theorem scan_take_succ (fams : List queue_family) (k : Nat) (hk : k < fams.length) :
    scan (fams.take (k + 1)) = scan_step (scan (fams.take k)) fams[k] := by
  have h : fams.take (k + 1) = fams.take k ++ [fams[k]] := by
    rw [List.take_succ, List.getElem?_eq_getElem hk]; rfl
  rw [h]
  exact scan_loop_append _ _ _ rfl

theorem scan_take_length (fams : List queue_family) : scan (fams.take fams.length) = scan fams := by
  rw [List.take_length]

/-- Once all four roles are assigned the state no longer changes. -/
theorem scan_take_stable (fams : List queue_family) (k : Nat)
    (h : all_assigned (scan (fams.take k)).m_queue_support = true) (m : Nat) (hm : k ≤ m) :
    scan (fams.take m) = scan (fams.take k) := by
  induction m, hm using Nat.le_induction with
  | base => rfl
  | succ m hkm ih =>
    by_cases hlt : m < fams.length
    · rw [scan_take_succ fams m hlt, ih, scan_step, if_pos h]
    · rw [List.take_of_length_le (by omega), ← ih, List.take_of_length_le (by omega)]

/-! ## What one pass does while the loop is still running -/

section step

variable (r : scan_state) (family : queue_family)

theorem scan_step_done (h : all_assigned r.m_queue_support = true) : scan_step r family = r := by
  simp [scan_step, h]

theorem scan_step_queue_support (h : all_assigned r.m_queue_support = false) :
    (scan_step r family).m_queue_support = (scan_body r family).m_queue_support := by
  unfold scan_step
  simp only [h, Bool.false_eq_true, if_false]
  split <;> rfl

theorem scan_step_graphics_selected (h : all_assigned r.m_queue_support = false) :
    (scan_step r family).graphics_selected = (r.graphics_selected || family.graphics) := by
  unfold scan_step
  simp only [h, Bool.false_eq_true, if_false]
  split <;> simp [scan_body_graphics_selected]

theorem scan_step_present_selected (h : all_assigned r.m_queue_support = false) :
    (scan_step r family).present_selected = (r.present_selected || family.surface_support) := by
  unfold scan_step
  simp only [h, Bool.false_eq_true, if_false]
  split <;> simp [scan_body_present_selected]

theorem scan_step_i (h : all_assigned r.m_queue_support = false) :
    (scan_step r family).i =
      if all_assigned (scan_step r family).m_queue_support then r.i else r.i + 1 := by
  rw [scan_step_queue_support r family h]
  unfold scan_step
  simp only [h, Bool.false_eq_true, if_false]
  split <;> simp [scan_body_i]

end step

/-- The two flags mirror `has_value()` of their optionals, and while the loop is running the
counter is the number of families visited. -/
theorem scan_take_basic (fams : List queue_family) (k : Nat) (hk : k ≤ fams.length) :
    (scan (fams.take k)).graphics_selected = (scan (fams.take k)).m_queue_support.graphics.isSome ∧
    (scan (fams.take k)).present_selected = (scan (fams.take k)).m_queue_support.present.isSome ∧
    (all_assigned (scan (fams.take k)).m_queue_support = false → (scan (fams.take k)).i = k) ∧
    (scan (fams.take k)).i ≤ k := by
  induction k with
  | zero => simp [scan, scan_loop, scan_init]
  | succ k ih =>
    obtain ⟨hg, hp, hi, hle⟩ := ih (by omega)
    rw [scan_take_succ fams k (by omega)]
    cases hc : all_assigned (scan (fams.take k)).m_queue_support
    · have hik := hi hc
      rw [scan_step_graphics_selected _ _ hc, scan_step_present_selected _ _ hc,
        scan_step_i _ _ hc, scan_step_queue_support _ _ hc, scan_body_graphics,
        scan_body_present, hg, hp, hik]
      refine ⟨?_, ?_, ?_, ?_⟩
      · cases (scan (fams.take k)).m_queue_support.graphics <;> cases fams[k].graphics <;> simp
      · cases (scan (fams.take k)).m_queue_support.present <;>
          cases (scan (fams.take k)).m_queue_support.graphics <;>
          cases fams[k].graphics <;> cases fams[k].surface_support <;> simp
      · intro h; simp [h]
      · split <;> omega
    · rw [scan_step_done _ _ hc]
      exact ⟨hg, hp, by simp [hc], by omega⟩

theorem all_assigned_iff (q : queue_support) :
    all_assigned q = true ↔
      q.graphics.isSome = true ∧ q.present.isSome = true ∧ q.compute.isSome = true ∧
        q.transfer.isSome = true := by
  simp [all_assigned, and_assoc]

theorem getElem?_lt_succ {fams : List queue_family} {k j : Nat} {f : queue_family}
    (hk : k < fams.length) (hj : j < k + 1) (hf : fams[j]? = some f) (hne : ¬ j < k) :
    f = fams[k] := by
  have : j = k := by omega
  subst this
  rw [List.getElem?_eq_getElem hk] at hf
  exact (Option.some.inj hf).symm

/-- Graphics after `k` families: the first graphics family among them, if any. -/
theorem scan_take_graphics (fams : List queue_family) (k : Nat) (hk : k ≤ fams.length) :
    (∀ g, (scan (fams.take k)).m_queue_support.graphics = some g →
      g < k ∧ (∃ f, fams[g]? = some f ∧ f.graphics = true) ∧
        ∀ j f, j < g → fams[j]? = some f → f.graphics = false) ∧
    ((scan (fams.take k)).m_queue_support.graphics = none →
      ∀ j f, j < k → fams[j]? = some f → f.graphics = false) := by
  induction k with
  | zero => simp [scan, scan_loop, scan_init]
  | succ k ih =>
    obtain ⟨hsome, hnone⟩ := ih (by omega)
    obtain ⟨hg, -, hi, -⟩ := scan_take_basic fams k (by omega)
    have hklt : k < fams.length := by omega
    rw [scan_take_succ fams k hklt]
    cases hc : all_assigned (scan (fams.take k)).m_queue_support
    · rw [scan_step_queue_support _ _ hc, scan_body_graphics, hg, hi hc]
      cases hgr : (scan (fams.take k)).m_queue_support.graphics with
      | none =>
        cases hfg : fams[k].graphics
        · simp only [Option.isSome_none, Bool.not_false, Bool.and_false, Bool.false_eq_true,
            if_false, reduceCtorEq, false_implies, implies_true, true_and]
          intro _ j f hj hf
          by_cases hjk : j < k
          · exact hnone hgr j f hjk hf
          · rw [getElem?_lt_succ hklt hj hf hjk, hfg]
        · simp only [Option.isSome_none, Bool.not_false, Bool.and_self, if_true,
            Option.some.injEq, reduceCtorEq, false_implies, and_true]
          rintro g rfl
          exact ⟨by omega, ⟨fams[k], List.getElem?_eq_getElem hklt, hfg⟩, hnone hgr⟩
      | some g0 =>
        simp only [Option.isSome_some, Bool.not_true, Bool.false_and, Bool.false_eq_true,
          if_false, Option.some.injEq, reduceCtorEq, false_implies, and_true]
        rintro g rfl
        obtain ⟨h1, h2, h3⟩ := hsome _ hgr
        exact ⟨by omega, h2, h3⟩
    · rw [scan_step_done _ _ hc]
      have hs := ((all_assigned_iff _).1 hc).1
      refine ⟨fun g h => ?_, fun h => ?_⟩
      · obtain ⟨h1, h2, h3⟩ := hsome g h
        exact ⟨by omega, h2, h3⟩
      · simp [h] at hs

/-- Present after `k` families: some family supporting the surface, none only if there is
no such family, and the graphics family whenever that one supports the surface. -/
theorem scan_take_present (fams : List queue_family) (k : Nat) (hk : k ≤ fams.length) :
    (∀ p, (scan (fams.take k)).m_queue_support.present = some p →
      p < k ∧ ∃ f, fams[p]? = some f ∧ f.surface_support = true) ∧
    ((scan (fams.take k)).m_queue_support.present = none →
      ∀ j f, j < k → fams[j]? = some f → f.surface_support = false) ∧
    (∀ g f, (scan (fams.take k)).m_queue_support.graphics = some g → fams[g]? = some f →
      f.surface_support = true → (scan (fams.take k)).m_queue_support.present = some g) := by
  induction k with
  | zero => simp [scan, scan_loop, scan_init]
  | succ k ih =>
    obtain ⟨hsome, hnone, hco⟩ := ih (by omega)
    obtain ⟨hg, hp, hi, -⟩ := scan_take_basic fams k (by omega)
    have hklt : k < fams.length := by omega
    rw [scan_take_succ fams k hklt]
    cases hc : all_assigned (scan (fams.take k)).m_queue_support
    · rw [scan_step_queue_support _ _ hc, scan_body_graphics, scan_body_present, hg, hp, hi hc]
      have hfk : fams[k]? = some fams[k] := List.getElem?_eq_getElem hklt
      refine ⟨?_, ?_, ?_⟩
      · intro p hpp
        split at hpp
        · rename_i hcond
          obtain rfl : k = p := Option.some.inj hpp
          exact ⟨by omega, fams[k], hfk, by simp at hcond; exact hcond.1⟩
        · obtain ⟨h1, h2⟩ := hsome p hpp
          exact ⟨by omega, h2⟩
      · intro hpn j f hj hf
        split at hpn
        · simp at hpn
        · rename_i hcond
          by_cases hjk : j < k
          · exact hnone hpn j f hjk hf
          · rw [getElem?_lt_succ hklt hj hf hjk]
            simp only [hpn, Option.isSome_none, Bool.not_false, Bool.or_true, Bool.and_true,
              Bool.not_eq_true] at hcond
            exact hcond
      · intro g f hgg hf hfs
        cases hgr : (scan (fams.take k)).m_queue_support.graphics with
        | none =>
          rw [hgr] at hgg
          cases hfg : fams[k].graphics
          · simp [hfg] at hgg
          · simp only [hfg, Option.isSome_none, Bool.not_false, Bool.and_self, if_true,
              Option.some.injEq] at hgg
            subst hgg
            rw [hfk] at hf
            obtain rfl := Option.some.inj hf
            simp [hgr, hfg, hfs]
        | some g0 =>
          rw [hgr] at hgg
          simp only [Option.isSome_some, Bool.not_true, Bool.false_and, Bool.false_eq_true,
            if_false, Option.some.injEq] at hgg
          subst hgg
          have hpr := hco g0 f hgr hf hfs
          simp [hgr, hpr]
    · rw [scan_step_done _ _ hc]
      have hs := ((all_assigned_iff _).1 hc).2.1
      refine ⟨fun p h => ?_, fun h => ?_, hco⟩
      · obtain ⟨h1, h2⟩ := hsome p h
        exact ⟨by omega, h2⟩
      · simp [h] at hs

/-- Compute after `k` families: the last compute family the loop visited. A compute family
`c` is visited when the loop has not been left before it; a later compute family `j` was not
visited when all four roles were already assigned after the first `j` families. -/
theorem scan_take_compute (fams : List queue_family) (k : Nat) (hk : k ≤ fams.length) :
    (∀ c, (scan (fams.take k)).m_queue_support.compute = some c →
      c < k ∧ (∃ f, fams[c]? = some f ∧ f.compute = true) ∧
        all_assigned (scan (fams.take c)).m_queue_support = false ∧
        ∀ j f, c < j → j < k → fams[j]? = some f → f.compute = true →
          all_assigned (scan (fams.take j)).m_queue_support = true) ∧
    ((scan (fams.take k)).m_queue_support.compute = none →
      ∀ j f, j < k → fams[j]? = some f → f.compute = false) := by
  induction k with
  | zero => simp [scan, scan_loop, scan_init]
  | succ k ih =>
    obtain ⟨hsome, hnone⟩ := ih (by omega)
    obtain ⟨-, -, hi, -⟩ := scan_take_basic fams k (by omega)
    have hklt : k < fams.length := by omega
    have hfk : fams[k]? = some fams[k] := List.getElem?_eq_getElem hklt
    rw [scan_take_succ fams k hklt]
    cases hc : all_assigned (scan (fams.take k)).m_queue_support
    · rw [scan_step_queue_support _ _ hc, scan_body_compute, hi hc]
      cases hfc : fams[k].compute
      · simp only [Bool.false_eq_true, if_false]
        refine ⟨fun c hcc => ?_, fun hn j f hj hf => ?_⟩
        · obtain ⟨h1, h2, h3, h4⟩ := hsome c hcc
          refine ⟨by omega, h2, h3, fun j f hcj hj hf hfc2 => ?_⟩
          by_cases hjk : j < k
          · exact h4 j f hcj hjk hf hfc2
          · rw [getElem?_lt_succ hklt hj hf hjk, hfc] at hfc2
            cases hfc2
        · by_cases hjk : j < k
          · exact hnone hn j f hjk hf
          · rw [getElem?_lt_succ hklt hj hf hjk, hfc]
      · simp only [if_true, Option.some.injEq, reduceCtorEq, false_implies, and_true]
        rintro c rfl
        exact ⟨by omega, ⟨fams[k], hfk, hfc⟩, hc, fun j f h1 h2 => by omega⟩
    · rw [scan_step_done _ _ hc]
      have hs := ((all_assigned_iff _).1 hc).2.2.1
      refine ⟨fun c hcc => ?_, fun h => ?_⟩
      · obtain ⟨h1, h2, h3, h4⟩ := hsome c hcc
        refine ⟨by omega, h2, h3, fun j f hcj hj hf hfc2 => ?_⟩
        by_cases hjk : j < k
        · exact h4 j f hcj hjk hf hfc2
        · obtain rfl : j = k := by omega
          exact hc
      · simp [h] at hs

/-- Transfer after `k` families: the last family the loop visited that reports transfer and
comes after the graphics family; empty when no such family was visited. -/
theorem scan_take_transfer (fams : List queue_family) (k : Nat) (hk : k ≤ fams.length) :
    (∀ t, (scan (fams.take k)).m_queue_support.transfer = some t →
      t < k ∧ (∃ f, fams[t]? = some f ∧ f.transfer = true) ∧
        (∃ g, (scan (fams.take k)).m_queue_support.graphics = some g ∧ g < t) ∧
        all_assigned (scan (fams.take t)).m_queue_support = false ∧
        ∀ j f, t < j → j < k → fams[j]? = some f → f.transfer = true →
          all_assigned (scan (fams.take j)).m_queue_support = true) ∧
    ((scan (fams.take k)).m_queue_support.transfer = none →
      ∀ g, (scan (fams.take k)).m_queue_support.graphics = some g →
        ∀ j f, g < j → j < k → fams[j]? = some f → f.transfer = false) := by
  induction k with
  | zero => simp [scan, scan_loop, scan_init]
  | succ k ih =>
    obtain ⟨hsome, hnone⟩ := ih (by omega)
    obtain ⟨hg, -, hi, -⟩ := scan_take_basic fams k (by omega)
    have hgk := (scan_take_graphics fams k (by omega)).1
    have hklt : k < fams.length := by omega
    have hfk : fams[k]? = some fams[k] := List.getElem?_eq_getElem hklt
    rw [scan_take_succ fams k hklt]
    cases hc : all_assigned (scan (fams.take k)).m_queue_support
    · rw [scan_step_queue_support _ _ hc, scan_body_transfer, scan_body_graphics, hg, hi hc]
      cases hgr : (scan (fams.take k)).m_queue_support.graphics with
      | none =>
        have htn : (scan (fams.take k)).m_queue_support.transfer = none := by
          cases htr : (scan (fams.take k)).m_queue_support.transfer with
          | none => rfl
          | some t =>
            obtain ⟨-, -, ⟨g, hg', -⟩, -⟩ := hsome t htr
            rw [hgr] at hg'
            cases hg'
        simp only [htn, Option.isSome_none, Bool.false_and, Bool.false_eq_true, if_false,
          reduceCtorEq, false_implies, implies_true, true_and, Bool.not_false, Bool.true_and,
          forall_const]
        intro g hgg j f hgj hj
        split at hgg
        · obtain rfl : k = g := Option.some.inj hgg
          omega
        · cases hgg
      | some g0 =>
        have hg0 : g0 < k := (hgk g0 hgr).1
        have hne : (some g0 != some k) = true := by
          simp only [bne_iff_ne, ne_eq, Option.some.injEq]
          omega
        simp only [Option.isSome_some, hne, Bool.true_and, Bool.not_true, Bool.false_and,
          Bool.false_eq_true, if_false, Option.some.injEq]
        cases hft : fams[k].transfer
        · simp only [Bool.false_eq_true, if_false]
          refine ⟨fun t htt => ?_, fun hn g hgg j f hgj hj hf => ?_⟩
          · obtain ⟨h1, h2, h3, h4, h5⟩ := hsome t htt
            rw [hgr] at h3
            simp only [Option.some.injEq] at h3
            refine ⟨by omega, h2, h3, h4, fun j f htj hj hf hft2 => ?_⟩
            by_cases hjk : j < k
            · exact h5 j f htj hjk hf hft2
            · rw [getElem?_lt_succ hklt hj hf hjk, hft] at hft2
              cases hft2
          · subst hgg
            by_cases hjk : j < k
            · exact hnone hn g0 hgr j f hgj hjk hf
            · rw [getElem?_lt_succ hklt hj hf hjk, hft]
        · simp only [if_true, Option.some.injEq, reduceCtorEq, false_implies, and_true]
          rintro t rfl
          exact ⟨by omega, ⟨fams[k], hfk, hft⟩, ⟨g0, rfl, hg0⟩, hc, fun j f h1 h2 => by omega⟩
    · rw [scan_step_done _ _ hc]
      have hs := ((all_assigned_iff _).1 hc).2.2.2
      refine ⟨fun t htt => ?_, fun h => ?_⟩
      · obtain ⟨h1, h2, h3, h4, h5⟩ := hsome t htt
        refine ⟨by omega, h2, h3, h4, fun j f htj hj hf hft2 => ?_⟩
        by_cases hjk : j < k
        · exact h5 j f htj hjk hf hft2
        · obtain rfl : j = k := by omega
          exact hc
      · simp [h] at hs

/-! ## The state after the whole loop -/

theorem getElem?_lt_length {fams : List queue_family} {j : Nat} {f : queue_family}
    (hf : fams[j]? = some f) : j < fams.length :=
  (List.getElem?_eq_some.1 hf).1

theorem scan_take_of_length_le (fams : List queue_family) (k : Nat) (hk : fams.length ≤ k) :
    scan (fams.take k) = scan fams := by
  rw [List.take_of_length_le hk]

theorem scan_graphics_none_iff (fams : List queue_family) :
    (scan fams).m_queue_support.graphics = none ↔ ∀ f ∈ fams, f.graphics = false := by
  have h := scan_take_graphics fams fams.length le_rfl
  rw [scan_take_length] at h
  constructor
  · intro hn f hf
    obtain ⟨j, hj⟩ := List.mem_iff_getElem?.1 hf
    exact h.2 hn j f (getElem?_lt_length hj) hj
  · intro hall
    cases hgr : (scan fams).m_queue_support.graphics with
    | none => rfl
    | some g =>
      obtain ⟨-, ⟨f, hf, hfg⟩, -⟩ := h.1 g hgr
      rw [hall f (List.mem_iff_getElem?.2 ⟨g, hf⟩)] at hfg
      cases hfg

theorem scan_present_none_iff (fams : List queue_family) :
    (scan fams).m_queue_support.present = none ↔ ∀ f ∈ fams, f.surface_support = false := by
  have h := scan_take_present fams fams.length le_rfl
  rw [scan_take_length] at h
  constructor
  · intro hn f hf
    obtain ⟨j, hj⟩ := List.mem_iff_getElem?.1 hf
    exact h.2.1 hn j f (getElem?_lt_length hj) hj
  · intro hall
    cases hpr : (scan fams).m_queue_support.present with
    | none => rfl
    | some p =>
      obtain ⟨-, f, hf, hfp⟩ := h.1 p hpr
      rw [hall f (List.mem_iff_getElem?.2 ⟨p, hf⟩)] at hfp
      cases hfp

theorem scan_compute_none_iff (fams : List queue_family) :
    (scan fams).m_queue_support.compute = none ↔ ∀ f ∈ fams, f.compute = false := by
  have h := scan_take_compute fams fams.length le_rfl
  rw [scan_take_length] at h
  constructor
  · intro hn f hf
    obtain ⟨j, hj⟩ := List.mem_iff_getElem?.1 hf
    exact h.2 hn j f (getElem?_lt_length hj) hj
  · intro hall
    cases hcr : (scan fams).m_queue_support.compute with
    | none => rfl
    | some c =>
      obtain ⟨-, ⟨f, hf, hfc⟩, -⟩ := h.1 c hcr
      rw [hall f (List.mem_iff_getElem?.2 ⟨c, hf⟩)] at hfc
      cases hfc

/-- The first graphics family of a list is the one the loop holds after any longer prefix. -/
theorem scan_take_graphics_eq (fams : List queue_family) (g : Nat) (fg : queue_family)
    (hfg : fams[g]? = some fg) (hgr : fg.graphics = true)
    (hfirst : ∀ j f, j < g → fams[j]? = some f → f.graphics = false) (k : Nat) :
    (scan (fams.take k)).m_queue_support.graphics = if g < k then some g else none := by
  have hgl := getElem?_lt_length hfg
  rcases Nat.lt_or_ge fams.length k with hk | hk
  · rw [scan_take_of_length_le fams k (by omega), ← scan_take_length, if_pos (by omega)]
    have h := scan_take_graphics fams fams.length le_rfl
    cases hs : (scan (fams.take fams.length)).m_queue_support.graphics with
    | none => rw [h.2 hs g fg hgl hfg] at hgr; cases hgr
    | some g' =>
      obtain ⟨-, ⟨f', hf', hfg'⟩, hmin⟩ := h.1 g' hs
      rcases Nat.lt_trichotomy g g' with hlt | heq | hgt
      · rw [hmin g fg hlt hfg] at hgr; cases hgr
      · rw [heq]
      · rw [hfirst g' f' hgt hf'] at hfg'; cases hfg'
  · have h := scan_take_graphics fams k hk
    cases hs : (scan (fams.take k)).m_queue_support.graphics with
    | none =>
      split
      · rename_i hlt
        rw [h.2 hs g fg hlt hfg] at hgr; cases hgr
      · rfl
    | some g' =>
      obtain ⟨hg'k, ⟨f', hf', hfg'⟩, hmin⟩ := h.1 g' hs
      rcases Nat.lt_trichotomy g g' with hlt | heq | hgt
      · rw [hmin g fg hlt hfg] at hgr; cases hgr
      · rw [if_pos (by omega), heq]
      · rw [hfirst g' f' hgt hf'] at hfg'; cases hfg'

theorem transfer_fallback_of_graphics (q : queue_support) (g : Nat) (hg : q.graphics = some g) :
    transfer_fallback q = .ok { q with transfer := some (q.transfer.getD g) } := by
  rcases q with ⟨qg, qt, qp, qc⟩
  simp only at hg
  subst hg
  cases qt <;> rfl

theorem transfer_fallback_of_none (q : queue_support) (hg : q.graphics = none)
    (ht : q.transfer = none) : transfer_fallback q = .error .bad_optional_access := by
  rcases q with ⟨qg, qt, qp, qc⟩
  simp only at hg ht
  subst hg ht
  rfl

/-- The fall-back of lines 99-101, once the graphics family is known. -/
theorem discover_of_graphics (fams : List queue_family) (g : Nat)
    (hg : (scan fams).m_queue_support.graphics = some g) :
    discover fams = .ok
      { (scan fams).m_queue_support with
        transfer := some ((scan fams).m_queue_support.transfer.getD g) } :=
  transfer_fallback_of_graphics _ g hg

theorem discover_of_no_graphics (fams : List queue_family)
    (hg : (scan fams).m_queue_support.graphics = none) :
    discover fams = .error .bad_optional_access := by
  have h := scan_take_transfer fams fams.length le_rfl
  rw [scan_take_length] at h
  apply transfer_fallback_of_none _ hg
  cases ht : (scan fams).m_queue_support.transfer with
  | none => rfl
  | some t =>
    obtain ⟨-, -, ⟨g, hg', -⟩, -⟩ := h.1 t ht
    rw [hg] at hg'
    cases hg'

theorem exists_first_graphics (fams : List queue_family) (h : ∃ f ∈ fams, f.graphics = true) :
    ∃ g fg, (scan fams).m_queue_support.graphics = some g ∧ fams[g]? = some fg ∧
      fg.graphics = true ∧ ∀ j f, j < g → fams[j]? = some f → f.graphics = false := by
  have hinv := scan_take_graphics fams fams.length le_rfl
  rw [scan_take_length] at hinv
  cases hs : (scan fams).m_queue_support.graphics with
  | none =>
    obtain ⟨f, hf, hfg⟩ := h
    rw [(scan_graphics_none_iff fams).1 hs f hf] at hfg
    cases hfg
  | some g =>
    obtain ⟨-, ⟨fg, hfg, hgr⟩, hmin⟩ := hinv.1 g hs
    exact ⟨g, fg, rfl, hfg, hgr, hmin⟩

theorem scan_take_present_eq (fams : List queue_family) (g : Nat) (fg : queue_family)
    (hfg : fams[g]? = some fg) (hgr : fg.graphics = true) (hp : fg.surface_support = true)
    (hfirst : ∀ j f, j < g → fams[j]? = some f → f.graphics = false) (k : Nat) (hk : g < k) :
    (scan (fams.take k)).m_queue_support.present = some g := by
  have hgk := scan_take_graphics_eq fams g fg hfg hgr hfirst k
  rw [if_pos hk] at hgk
  rcases Nat.lt_or_ge fams.length k with hlt | hle
  · rw [scan_take_of_length_le fams k (by omega)] at hgk ⊢
    have h := scan_take_present fams fams.length le_rfl
    rw [scan_take_length] at h
    exact h.2.2 g fg hgk hfg hp
  · exact (scan_take_present fams k hle).2.2 g fg hgk hfg hp

/-- With a transfer-capable family after a graphics-capable one, `transfer` ends as the last
visited transfer-capable family after the chosen graphics family. -/
theorem transfer_after_graphics (fams : List queue_family) (g0 t0 : Nat)
    (fg ft : queue_family) (hfg : fams[g0]? = some fg) (hgr : fg.graphics = true)
    (hft : fams[t0]? = some ft) (htr : ft.transfer = true) (hlt : g0 < t0) :
    ∃ g t, (scan fams).m_queue_support.graphics = some g ∧
      (scan fams).m_queue_support.transfer = some t ∧ g < t ∧
      (∃ f, fams[t]? = some f ∧ f.transfer = true) ∧
      all_assigned (scan (fams.take t)).m_queue_support = false ∧
      (∀ j f, t < j → fams[j]? = some f → f.transfer = true →
        all_assigned (scan (fams.take j)).m_queue_support = true) ∧
      ∃ q, discover fams = .ok q ∧ q.graphics = some g ∧ q.transfer = some t := by
  obtain ⟨g, fg', hs, hfg', hgr', hmin⟩ :=
    exists_first_graphics fams ⟨fg, List.mem_iff_getElem?.2 ⟨g0, hfg⟩, hgr⟩
  have hg0 : g ≤ g0 := by
    by_contra hcon
    rw [hmin g0 fg (by omega) hfg] at hgr
    cases hgr
  have hinv := scan_take_transfer fams fams.length le_rfl
  rw [scan_take_length] at hinv
  cases hst : (scan fams).m_queue_support.transfer with
  | none =>
    rw [hinv.2 hst g hs t0 ft (by omega) (getElem?_lt_length hft) hft] at htr
    cases htr
  | some t =>
    obtain ⟨-, hT, ⟨g', hg', hgt⟩, hvis, hlater⟩ := hinv.1 t hst
    rw [hs] at hg'
    obtain rfl : g = g' := Option.some.inj hg'
    refine ⟨g, t, hs, rfl, hgt, hT, hvis,
      fun j f htj hf => hlater j f htj (getElem?_lt_length hf) hf, _,
      discover_of_graphics fams g hs, hs, ?_⟩
    simp [hst]

/-! ## The `.value()` reads and the queue-create requests -/

theorem queue_create_infos_ok (g t p c : Nat) :
    queue_create_infos ⟨some g, some t, some p, some c⟩ = .ok
      { m_queue_support := ⟨some g, some t, some p, some c⟩
        unique_families := [g, p, t, c].dedup
        device_queue_create_infos :=
          ([g, p, t, c].dedup).map fun family =>
            { queue_family_index := family, queue_priorities := queue_priorities } } :=
  rfl

theorem queue_create_infos_error (q : queue_support) (h : all_assigned q = false) :
    queue_create_infos q = .error .bad_optional_access := by
  rcases q with ⟨_ | g, _ | t, _ | p, _ | c⟩ <;> first | rfl | simp [all_assigned] at h

theorem render_device_eq (fams : List queue_family) :
    render_device fams =
      match discover fams with
      | .ok q => queue_create_infos q
      | .error e => .error e := by
  unfold render_device
  cases discover fams <;> rfl

theorem isSome_iff_exists (fams : List queue_family) (o : Option Nat)
    (p : queue_family → Bool) (h : o = none ↔ ∀ f ∈ fams, p f = false) :
    o.isSome = true ↔ ∃ f ∈ fams, p f = true := by
  rw [← Option.ne_none_iff_isSome, Ne, h]
  push_neg
  simp

/-- The outcome of the constructor in terms of the state after the loop. -/
theorem render_device_cases (fams : List queue_family) :
    (((scan fams).m_queue_support.graphics.isSome &&
        (scan fams).m_queue_support.present.isSome &&
        (scan fams).m_queue_support.compute.isSome) = false ∧
      render_device fams = .error .bad_optional_access) ∨
    (∃ g t p c, discover fams = .ok ⟨some g, some t, some p, some c⟩ ∧
      (scan fams).m_queue_support.graphics = some g ∧
      (scan fams).m_queue_support.present = some p ∧
      (scan fams).m_queue_support.compute = some c ∧
      (scan fams).m_queue_support.transfer.getD g = t ∧
      render_device fams = queue_create_infos ⟨some g, some t, some p, some c⟩) := by
  rw [render_device_eq]
  cases hg : (scan fams).m_queue_support.graphics with
  | none =>
    left
    rw [discover_of_no_graphics fams hg]
    exact ⟨rfl, rfl⟩
  | some g =>
    have hd := discover_of_graphics fams g hg
    rw [hd]
    rcases hq : (scan fams).m_queue_support with ⟨qg, qt, qp, qc⟩
    rw [hq] at hg hd
    simp only at hg
    subst hg
    cases qp with
    | none => left; exact ⟨by simp, queue_create_infos_error _ (by simp [all_assigned])⟩
    | some p =>
      cases qc with
      | none => left; exact ⟨by simp, queue_create_infos_error _ (by simp [all_assigned])⟩
      | some c =>
        right
        exact ⟨g, qt.getD g, p, c, by rw [← hd], rfl, rfl, rfl, rfl, rfl⟩

/-! ## The claims -/

/-- C1: for every family list with a graphics-capable family, the scan ends with `graphics`
equal to the smallest index whose family reports graphics; the optional is empty as long as the
loop has only seen families before that index, and holds that same index after every longer
prefix of the list, so it is never reassigned. -/
theorem graphics_is_first_graphics_family (fams : List queue_family)
    (h : ∃ f ∈ fams, f.graphics = true) :
    ∃ g, (scan fams).m_queue_support.graphics = some g ∧
      (∃ f, fams[g]? = some f ∧ f.graphics = true) ∧
      (∀ j f, j < g → fams[j]? = some f → f.graphics = false) ∧
      (∀ k, k ≤ g → (scan (fams.take k)).m_queue_support.graphics = none) ∧
      (∀ k, g < k → (scan (fams.take k)).m_queue_support.graphics = some g) := by
  obtain ⟨g, fg, hs, hfg, hgr, hmin⟩ := exists_first_graphics fams h
  refine ⟨g, hs, ⟨fg, hfg, hgr⟩, hmin, fun k hk => ?_, fun k hk => ?_⟩
  · rw [scan_take_graphics_eq fams g fg hfg hgr hmin k, if_neg (by omega)]
  · rw [scan_take_graphics_eq fams g fg hfg hgr hmin k, if_pos hk]

/-- C1 at the device `[transfer-only, graphics-only, all-capable]`. -/
theorem graphics_is_first_graphics_family_witness :
    ∃ g, (scan [fam_t, fam_g, fam_all]).m_queue_support.graphics = some g ∧
      (∃ f, [fam_t, fam_g, fam_all][g]? = some f ∧ f.graphics = true) ∧
      (∀ j f, j < g → [fam_t, fam_g, fam_all][j]? = some f → f.graphics = false) ∧
      (∀ k, k ≤ g → (scan ([fam_t, fam_g, fam_all].take k)).m_queue_support.graphics = none) ∧
      (∀ k, g < k →
        (scan ([fam_t, fam_g, fam_all].take k)).m_queue_support.graphics = some g) :=
  graphics_is_first_graphics_family [fam_t, fam_g, fam_all] ⟨fam_g, by decide, rfl⟩

/-- C2: when the first graphics-capable family (index `g`) also supports the surface, the scan
and the discovery both end with `present = graphics = g`, whatever the other families support;
`present` holds `g` after every prefix that reaches past `g`, so no later family replaces it.
With `g = 0` this is the case of a family 0 that supports graphics and present. -/
theorem present_is_graphics_family (fams : List queue_family) (g : Nat) (fg : queue_family)
    (hfg : fams[g]? = some fg) (hgr : fg.graphics = true) (hp : fg.surface_support = true)
    (hfirst : ∀ j f, j < g → fams[j]? = some f → f.graphics = false) :
    (scan fams).m_queue_support.graphics = some g ∧
    (scan fams).m_queue_support.present = some g ∧
    (∃ q, discover fams = .ok q ∧ q.graphics = some g ∧ q.present = some g) ∧
    (∀ k, g < k → (scan (fams.take k)).m_queue_support.present = some g) := by
  have hgl := getElem?_lt_length hfg
  have hG : (scan fams).m_queue_support.graphics = some g := by
    have := scan_take_graphics_eq fams g fg hfg hgr hfirst fams.length
    rwa [scan_take_length, if_pos hgl] at this
  have hP : (scan fams).m_queue_support.present = some g := by
    have := scan_take_present_eq fams g fg hfg hgr hp hfirst fams.length hgl
    rwa [scan_take_length] at this
  exact ⟨hG, hP, ⟨_, discover_of_graphics fams g hG, hG, hP⟩,
    scan_take_present_eq fams g fg hfg hgr hp hfirst⟩

/-- C2 at the device `[present-only, all-capable, present-only]` with `g = 1`: the earlier
present-only family 0 and the later family 2 do not end up as `present`. -/
theorem present_is_graphics_family_witness :
    (scan [fam_p, fam_all, fam_p]).m_queue_support.graphics = some 1 ∧
    (scan [fam_p, fam_all, fam_p]).m_queue_support.present = some 1 ∧
    (∃ q, discover [fam_p, fam_all, fam_p] = .ok q ∧ q.graphics = some 1 ∧
      q.present = some 1) ∧
    (∀ k, 1 < k → (scan ([fam_p, fam_all, fam_p].take k)).m_queue_support.present = some 1) :=
  present_is_graphics_family [fam_p, fam_all, fam_p] 1 fam_all rfl rfl rfl
    (fun j f hj hf => by
      obtain rfl : j = 0 := by omega
      obtain rfl : fam_p = f := Option.some.inj hf
      rfl)

/-- C3, as stated, fails on the device `[compute-only, graphics+compute+present]`: a compute
family exists and the smallest compute index is 0, yet the scan ends with `compute = 1`, because
line 89 assigns `compute` at every compute family it visits. -/
theorem compute_first_counterexample :
    (∃ f ∈ [fam_c, fam_gpc], f.compute = true) ∧
    (scan [fam_c, fam_gpc]).m_queue_support.compute = some 1 ∧
    ¬ ∃ c, (scan [fam_c, fam_gpc]).m_queue_support.compute = some c ∧
      (∃ f, [fam_c, fam_gpc][c]? = some f ∧ f.compute = true) ∧
      ∀ j f, j < c → [fam_c, fam_gpc][j]? = some f → f.compute = false := by
  refine ⟨⟨fam_c, by decide, rfl⟩, by decide, ?_⟩
  rintro ⟨c, hc, -, hmin⟩
  have h1 : (scan [fam_c, fam_gpc]).m_queue_support.compute = some 1 := by decide
  rw [h1] at hc
  obtain rfl : 1 = c := Option.some.inj hc
  have := hmin 0 fam_c (by omega) rfl
  exact absurd this (by decide)

/-- C3, amended: for every family list with a compute-capable family, the scan ends with
`compute` equal to the last compute-capable family it visited: the family at that index reports
compute, the loop had not yet been left when it reached that index (after the families before it
not all four roles were assigned), and every later compute-capable family lies behind the point
where the loop was left (after the families before it all four roles were assigned). -/
theorem compute_is_last_visited_compute_family (fams : List queue_family)
    (h : ∃ f ∈ fams, f.compute = true) :
    ∃ c, (scan fams).m_queue_support.compute = some c ∧
      (∃ f, fams[c]? = some f ∧ f.compute = true) ∧
      all_assigned (scan (fams.take c)).m_queue_support = false ∧
      ∀ j f, c < j → fams[j]? = some f → f.compute = true →
        all_assigned (scan (fams.take j)).m_queue_support = true := by
  have hinv := scan_take_compute fams fams.length le_rfl
  rw [scan_take_length] at hinv
  cases hs : (scan fams).m_queue_support.compute with
  | none =>
    obtain ⟨f, hf, hfc⟩ := h
    rw [(scan_compute_none_iff fams).1 hs f hf] at hfc
    cases hfc
  | some c =>
    obtain ⟨-, hc, hvis, hlater⟩ := hinv.1 c hs
    exact ⟨c, rfl, hc, hvis, fun j f hcj hf => hlater j f hcj (getElem?_lt_length hf) hf⟩

/-- C3 amended, at the device `[all-capable, compute-only, transfer-only, all-capable]`. -/
theorem compute_is_last_visited_compute_family_witness :
    ∃ c, (scan [fam_all, fam_c, fam_t, fam_all]).m_queue_support.compute = some c ∧
      (∃ f, [fam_all, fam_c, fam_t, fam_all][c]? = some f ∧ f.compute = true) ∧
      all_assigned (scan ([fam_all, fam_c, fam_t, fam_all].take c)).m_queue_support = false ∧
      ∀ j f, c < j → [fam_all, fam_c, fam_t, fam_all][j]? = some f → f.compute = true →
        all_assigned (scan ([fam_all, fam_c, fam_t, fam_all].take j)).m_queue_support = true :=
  compute_is_last_visited_compute_family [fam_all, fam_c, fam_t, fam_all]
    ⟨fam_all, by decide, rfl⟩

/-- C4, as stated, fails in two ways. On `[transfer-only, graphics+compute+present]` the
graphics family is 1 and family 0 reports transfer, yet the scan leaves `transfer` empty and the
fall-back sets it to 1: line 78 only looks at families once `graphics_selected` is set. On
`[graphics-only, transfer-only, transfer-only]` the first transfer family other than the graphics
family is 1, yet the scan ends with `transfer = 2`: line 79 assigns at every eligible family. -/
theorem transfer_first_counterexample :
    ((scan [fam_t, fam_gpc]).m_queue_support.graphics = some 1 ∧
      [fam_t, fam_gpc][0]? = some fam_t ∧ fam_t.transfer = true ∧
      (scan [fam_t, fam_gpc]).m_queue_support.transfer = none ∧
      discover [fam_t, fam_gpc] = .ok ⟨some 1, some 1, some 1, some 1⟩) ∧
    ((scan [fam_g, fam_t, fam_t]).m_queue_support.graphics = some 0 ∧
      [fam_g, fam_t, fam_t][1]? = some fam_t ∧
      (scan [fam_g, fam_t, fam_t]).m_queue_support.transfer = some 2 ∧
      discover [fam_g, fam_t, fam_t] = .ok ⟨some 0, some 2, none, none⟩) := by
  decide

/-- C4, amended: for every family list in which some transfer-capable family comes after a
graphics-capable family, the scan ends with `transfer` equal to the last transfer-capable family
after the chosen graphics family that it visited: its index is greater than the graphics index,
the loop had not yet been left when it reached that index, and every later transfer-capable
family lies behind the point where the loop was left. The discovery keeps that index. -/
theorem transfer_is_last_visited_after_graphics (fams : List queue_family) (g0 t0 : Nat)
    (fg ft : queue_family) (hfg : fams[g0]? = some fg) (hgr : fg.graphics = true)
    (hft : fams[t0]? = some ft) (htr : ft.transfer = true) (hlt : g0 < t0) :
    ∃ g t, (scan fams).m_queue_support.graphics = some g ∧
      (scan fams).m_queue_support.transfer = some t ∧ g < t ∧
      (∃ f, fams[t]? = some f ∧ f.transfer = true) ∧
      all_assigned (scan (fams.take t)).m_queue_support = false ∧
      (∀ j f, t < j → fams[j]? = some f → f.transfer = true →
        all_assigned (scan (fams.take j)).m_queue_support = true) ∧
      ∃ q, discover fams = .ok q ∧ q.graphics = some g ∧ q.transfer = some t :=
  transfer_after_graphics fams g0 t0 fg ft hfg hgr hft htr hlt

/-- C4 amended, at the device `[transfer-only, graphics-only, transfer-only, transfer-only]`. -/
theorem transfer_is_last_visited_after_graphics_witness :
    ∃ g t, (scan [fam_t, fam_g, fam_t, fam_t]).m_queue_support.graphics = some g ∧
      (scan [fam_t, fam_g, fam_t, fam_t]).m_queue_support.transfer = some t ∧ g < t ∧
      (∃ f, [fam_t, fam_g, fam_t, fam_t][t]? = some f ∧ f.transfer = true) ∧
      all_assigned (scan ([fam_t, fam_g, fam_t, fam_t].take t)).m_queue_support = false ∧
      (∀ j f, t < j → [fam_t, fam_g, fam_t, fam_t][j]? = some f → f.transfer = true →
        all_assigned (scan ([fam_t, fam_g, fam_t, fam_t].take j)).m_queue_support = true) ∧
      ∃ q, discover [fam_t, fam_g, fam_t, fam_t] = .ok q ∧ q.graphics = some g ∧
        q.transfer = some t :=
  transfer_is_last_visited_after_graphics [fam_t, fam_g, fam_t, fam_t] 1 2 fam_g fam_t
    rfl rfl rfl rfl (by decide)

/-- C5: for every family list with a graphics-capable family in which no family other than
the chosen graphics family reports transfer, the scan leaves `transfer` empty and the discovery
ends with `transfer` assigned and equal to `graphics`. -/
theorem transfer_falls_back_to_graphics (fams : List queue_family)
    (h : ∃ f ∈ fams, f.graphics = true)
    (hno : ∀ j f, fams[j]? = some f → f.transfer = true →
      (scan fams).m_queue_support.graphics = some j) :
    ∃ g q, (scan fams).m_queue_support.graphics = some g ∧
      (scan fams).m_queue_support.transfer = none ∧
      discover fams = .ok q ∧ q.graphics = some g ∧ q.transfer = some g := by
  obtain ⟨g, fg, hs, -, -, -⟩ := exists_first_graphics fams h
  have hinv := scan_take_transfer fams fams.length le_rfl
  rw [scan_take_length] at hinv
  have hst : (scan fams).m_queue_support.transfer = none := by
    cases hst : (scan fams).m_queue_support.transfer with
    | none => rfl
    | some t =>
      obtain ⟨-, ⟨f, hf, hT⟩, ⟨g', hg', hgt⟩, -⟩ := hinv.1 t hst
      have := hno t f hf hT
      rw [hg'] at this
      obtain rfl : g' = t := Option.some.inj this
      omega
  refine ⟨g, _, hs, hst, discover_of_graphics fams g hs, hs, ?_⟩
  simp [hst]

/-- C5 at the device `[present-only, all-capable]`: only the graphics family 1 reports
transfer. -/
theorem transfer_falls_back_to_graphics_witness :
    ∃ g q, (scan [fam_p, fam_all]).m_queue_support.graphics = some g ∧
      (scan [fam_p, fam_all]).m_queue_support.transfer = none ∧
      discover [fam_p, fam_all] = .ok q ∧ q.graphics = some g ∧ q.transfer = some g :=
  transfer_falls_back_to_graphics [fam_p, fam_all] ⟨fam_all, by decide, rfl⟩
    (fun j f hf hT => by
      rcases j with _ | _ | j
      · obtain rfl : fam_p = f := Option.some.inj hf
        cases hT
      · rfl
      · cases hf)

/-- C6: when family 0 is graphics-capable and some family at an index `≥ 1` reports transfer,
the scan ends with `graphics = 0` and `transfer` equal to an index `≥ 1` of a family reporting
transfer, and the fall-back leaves that state unchanged. -/
theorem transfer_is_dedicated_family (f0 : queue_family) (rest : List queue_family)
    (h0 : f0.graphics = true) (ht : ∃ f ∈ rest, f.transfer = true) :
    (scan (f0 :: rest)).m_queue_support.graphics = some 0 ∧
    (∃ t, (scan (f0 :: rest)).m_queue_support.transfer = some t ∧ 1 ≤ t ∧
      ∃ f, (f0 :: rest)[t]? = some f ∧ f.transfer = true) ∧
    discover (f0 :: rest) = .ok (scan (f0 :: rest)).m_queue_support := by
  obtain ⟨f, hf, hT⟩ := ht
  obtain ⟨j, hj⟩ := List.mem_iff_getElem?.1 hf
  obtain ⟨g, t, hg, hst, hgt, hTt, -, -, -⟩ :=
    transfer_after_graphics (f0 :: rest) 0 (j + 1) f0 f (by simp) h0 (by simpa using hj) hT
      (by omega)
  have hg0 : (scan (f0 :: rest)).m_queue_support.graphics = some 0 := by
    have := scan_take_graphics_eq (f0 :: rest) 0 f0 (by simp) h0 (fun j f hj => by omega)
      (f0 :: rest).length
    rwa [scan_take_length, if_pos (by simp)] at this
  refine ⟨hg0, ⟨t, hst, by omega, hTt⟩, ?_⟩
  rw [discover_of_graphics _ 0 hg0]
  congr 1
  rcases hq : (scan (f0 :: rest)).m_queue_support with ⟨a, b, c, d⟩
  rw [hq] at hst
  simp only at hst
  simp [hst]

/-- C6 at the device `[graphics-only, transfer-only]` without surface support on either,
together with the state the scan ends in there: `graphics = 0`, `transfer = 1`. -/
theorem transfer_is_dedicated_family_witness :
    ((scan [fam_g, fam_t]).m_queue_support.graphics = some 0 ∧
      (∃ t, (scan [fam_g, fam_t]).m_queue_support.transfer = some t ∧ 1 ≤ t ∧
        ∃ f, [fam_g, fam_t][t]? = some f ∧ f.transfer = true) ∧
      discover [fam_g, fam_t] = .ok (scan [fam_g, fam_t]).m_queue_support) ∧
    (scan [fam_g, fam_t]).m_queue_support = ⟨some 0, some 1, none, none⟩ :=
  ⟨transfer_is_dedicated_family fam_g [fam_t] rfl ⟨fam_t, by decide, rfl⟩, by decide⟩

/-- C7: the constructor leaves with `std::bad_optional_access` before `createDevice` is
reached exactly when the list has no graphics-capable family, or no family supporting the
surface, or no compute-capable family; otherwise, and only then, the discovery ends with all
four roles assigned and the constructor reaches `createDevice` with that assignment. -/
theorem construction_fails_iff_role_missing (fams : List queue_family) :
    (render_device fams = .error .bad_optional_access ↔
      (∀ f ∈ fams, f.graphics = false) ∨ (∀ f ∈ fams, f.surface_support = false) ∨
        (∀ f ∈ fams, f.compute = false)) ∧
    ((∃ r, render_device fams = .ok r ∧ discover fams = .ok r.m_queue_support ∧
        all_assigned r.m_queue_support = true) ↔
      (∃ f ∈ fams, f.graphics = true) ∧ (∃ f ∈ fams, f.surface_support = true) ∧
        (∃ f ∈ fams, f.compute = true)) := by
  rw [← scan_graphics_none_iff, ← scan_present_none_iff, ← scan_compute_none_iff,
    ← isSome_iff_exists fams _ _ (scan_graphics_none_iff fams),
    ← isSome_iff_exists fams _ _ (scan_present_none_iff fams),
    ← isSome_iff_exists fams _ _ (scan_compute_none_iff fams)]
  rcases render_device_cases fams with ⟨hb, he⟩ | ⟨g, t, p, c, hd, hg, hp, hc, -, hr⟩
  · rw [he]
    constructor
    · refine ⟨fun _ => ?_, fun _ => rfl⟩
      cases hg : (scan fams).m_queue_support.graphics <;>
        cases hp : (scan fams).m_queue_support.present <;>
        cases hc : (scan fams).m_queue_support.compute <;> simp [hg, hp, hc] at hb ⊢
    · constructor
      · rintro ⟨r, hr, -⟩
        cases hr
      · rintro ⟨h1, h2, h3⟩
        simp [h1, h2, h3] at hb
  · rw [hr, queue_create_infos_ok, hg, hp, hc]
    constructor
    · simp
    · simp only [Option.isSome_some, and_self, iff_true]
      exact ⟨_, rfl, hd, rfl⟩

/-- C8: a device whose single family supports graphics, present, transfer and compute gets
index 0 for all four roles, a unique-family set of size 1 and exactly one queue-create request
(family 0, one queue of priority 1); and whenever the constructor reaches `createDevice`, the
unique-family set has no duplicates and holds exactly the assigned indices, the requests are
one per member of that set, every assigned index is requested exactly once, and every request
asks for one queue of priority 1. -/
theorem one_request_per_assigned_family :
    (∀ f : queue_family, f.graphics = true → f.surface_support = true → f.transfer = true →
      f.compute = true →
      render_device [f] = .ok ⟨⟨some 0, some 0, some 0, some 0⟩, [0], [⟨0, [1]⟩]⟩) ∧
    (∀ fams r, render_device fams = .ok r →
      ∃ g t p c, r.m_queue_support = ⟨some g, some t, some p, some c⟩ ∧
        r.unique_families.Nodup ∧
        (∀ x, x ∈ r.unique_families ↔ x = g ∨ x = p ∨ x = t ∨ x = c) ∧
        r.device_queue_create_infos.map device_queue_create_info.queue_family_index =
          r.unique_families ∧
        (∀ x, x = g ∨ x = p ∨ x = t ∨ x = c →
          (r.device_queue_create_infos.map
            device_queue_create_info.queue_family_index).count x = 1) ∧
        (∀ info ∈ r.device_queue_create_infos, info.queue_priorities = [1])) := by
  constructor
  · rintro ⟨fg, fc, ft, fp⟩ h1 h2 h3 h4
    simp only at h1 h2 h3 h4
    subst h1 h2 h3 h4
    rfl
  · intro fams r hr
    rcases render_device_cases fams with ⟨-, he⟩ | ⟨g, t, p, c, -, -, -, -, -, hq⟩
    · rw [he] at hr
      cases hr
    · rw [hq, queue_create_infos_ok] at hr
      obtain rfl := Except.ok.inj hr
      have hmap : (([g, p, t, c].dedup).map fun family =>
          ({ queue_family_index := family, queue_priorities := queue_priorities } :
            device_queue_create_info)).map device_queue_create_info.queue_family_index =
          [g, p, t, c].dedup := by
        rw [List.map_map]
        exact List.map_id _
      refine ⟨g, t, p, c, rfl, List.nodup_dedup _, fun x => ?_, hmap, fun x hx => ?_,
        fun info hinfo => ?_⟩
      · simp [List.mem_dedup]
      · simp only [hmap, List.count_dedup]
        rw [if_pos]
        simpa using hx
      · simp only [List.mem_map] at hinfo
        obtain ⟨family, -, rfl⟩ := hinfo
        rfl

/-- C8, second part, at the device `[present-only, graphics+compute+present, transfer-only,
transfer-only]`, where the assignment is graphics 1, transfer 2, present 1, compute 1 and the
two families 1 and 2 are requested. -/
theorem one_request_per_assigned_family_witness :
    render_device [fam_p, fam_gpc, fam_t, fam_t] =
      .ok ⟨⟨some 1, some 2, some 1, some 1⟩, [2, 1], [⟨2, [1]⟩, ⟨1, [1]⟩]⟩ ∧
    ∃ g t p c,
      (⟨⟨some 1, some 2, some 1, some 1⟩, [2, 1], [⟨2, [1]⟩, ⟨1, [1]⟩]⟩ :
        device_request).m_queue_support = ⟨some g, some t, some p, some c⟩ ∧
      [2, 1].Nodup ∧ (∀ x, x ∈ [2, 1] ↔ x = g ∨ x = p ∨ x = t ∨ x = c) ∧
      ([⟨2, [1]⟩, ⟨1, [1]⟩] : List device_queue_create_info).map
        device_queue_create_info.queue_family_index = [2, 1] ∧
      (∀ x, x = g ∨ x = p ∨ x = t ∨ x = c →
        (([⟨2, [1]⟩, ⟨1, [1]⟩] : List device_queue_create_info).map
          device_queue_create_info.queue_family_index).count x = 1) ∧
      (∀ info ∈ ([⟨2, [1]⟩, ⟨1, [1]⟩] : List device_queue_create_info),
        info.queue_priorities = [1]) :=
  ⟨rfl, one_request_per_assigned_family.2 [fam_p, fam_gpc, fam_t, fam_t]
    ⟨⟨some 1, some 2, some 1, some 1⟩, [2, 1], [⟨2, [1]⟩, ⟨1, [1]⟩]⟩ rfl⟩

/-- C9: with strategy `naive`, `select_gpu` returns the first device of every non-empty
enumeration, whatever that device and the later ones are; being a function of the enumeration,
it returns the same device on the same enumeration. -/
theorem select_gpu_naive_is_first {physical_device : Type} (gpu : physical_device)
    (rest : List physical_device) :
    select_gpu gpu_selection_strategy.naive (gpu :: rest) = .ok gpu ∧
    select_gpu_naive (gpu :: rest) = .ok gpu ∧
    ∀ rest2 : List physical_device,
      select_gpu gpu_selection_strategy.naive (gpu :: rest2) =
        select_gpu gpu_selection_strategy.naive (gpu :: rest) := by
  simp [select_gpu, select_gpu_naive]

/-- C10: when the discovery ends with all four roles assigned, every assigned index is smaller
than the number of families, the graphics family reports graphics, the compute family reports
compute, the present family supports the surface, and the transfer family reports transfer or
is the graphics family. -/
theorem assigned_indices_are_capable (fams : List queue_family) (q : queue_support)
    (h : discover fams = .ok q) (hall : all_assigned q = true) :
    ∃ g t p c, q = ⟨some g, some t, some p, some c⟩ ∧
      g < fams.length ∧ t < fams.length ∧ p < fams.length ∧ c < fams.length ∧
      (∃ f, fams[g]? = some f ∧ f.graphics = true) ∧
      (∃ f, fams[c]? = some f ∧ f.compute = true) ∧
      (∃ f, fams[p]? = some f ∧ f.surface_support = true) ∧
      ((∃ f, fams[t]? = some f ∧ f.transfer = true) ∨ t = g) := by
  have hG := (scan_take_graphics fams fams.length le_rfl).1
  have hP := (scan_take_present fams fams.length le_rfl).1
  have hC := (scan_take_compute fams fams.length le_rfl).1
  have hT := (scan_take_transfer fams fams.length le_rfl).1
  rw [scan_take_length] at hG hP hC hT
  cases hg : (scan fams).m_queue_support.graphics with
  | none =>
    rw [discover_of_no_graphics fams hg] at h
    cases h
  | some g =>
    rw [discover_of_graphics fams g hg] at h
    obtain rfl := Except.ok.inj h
    simp only [all_assigned_iff] at hall
    obtain ⟨-, hp, hc, -⟩ := hall
    obtain ⟨p, hp⟩ := Option.isSome_iff_exists.1 hp
    obtain ⟨c, hc⟩ := Option.isSome_iff_exists.1 hc
    obtain ⟨hgl, hgf, -⟩ := hG g hg
    obtain ⟨hpl, hpf⟩ := hP p hp
    obtain ⟨hcl, hcf, -⟩ := hC c hc
    refine ⟨g, (scan fams).m_queue_support.transfer.getD g, p, c, ?_, hgl, ?_, hpl, hcl, hgf,
      hcf, hpf, ?_⟩
    · simp [hg, hp, hc]
    · cases ht : (scan fams).m_queue_support.transfer with
      | none => exact hgl
      | some t => exact (hT t ht).1
    · cases ht : (scan fams).m_queue_support.transfer with
      | none => right; rfl
      | some t => left; exact (hT t ht).2.1

/-- C10 at the device `[present-only, graphics+compute+present, transfer-only]`, where the
discovery ends with graphics 1, transfer 2, present 1, compute 1. -/
theorem assigned_indices_are_capable_witness :
    (discover [fam_p, fam_gpc, fam_t] = .ok ⟨some 1, some 2, some 1, some 1⟩ ∧
      all_assigned ⟨some 1, some 2, some 1, some 1⟩ = true) ∧
    ∃ g t p c, (⟨some 1, some 2, some 1, some 1⟩ : queue_support) =
        ⟨some g, some t, some p, some c⟩ ∧
      g < [fam_p, fam_gpc, fam_t].length ∧ t < [fam_p, fam_gpc, fam_t].length ∧
      p < [fam_p, fam_gpc, fam_t].length ∧ c < [fam_p, fam_gpc, fam_t].length ∧
      (∃ f, [fam_p, fam_gpc, fam_t][g]? = some f ∧ f.graphics = true) ∧
      (∃ f, [fam_p, fam_gpc, fam_t][c]? = some f ∧ f.compute = true) ∧
      (∃ f, [fam_p, fam_gpc, fam_t][p]? = some f ∧ f.surface_support = true) ∧
      ((∃ f, [fam_p, fam_gpc, fam_t][t]? = some f ∧ f.transfer = true) ∨ t = g) :=
  ⟨⟨rfl, rfl⟩, assigned_indices_are_capable [fam_p, fam_gpc, fam_t]
    ⟨some 1, some 2, some 1, some 1⟩ rfl rfl⟩

end kat
